import Mathlib

/-!
Shallow embedding of `hypermill-nctools-html-exporter`
(files `src/hypermill_nctools_html_exporter/util.py`,
`src/hypermill_nctools_html_exporter/parse_html.py`,
`src/hypermill_nctools_html_exporter/model.py`)
together with theorems checking the natural-language specification
against it.

Modelling conventions:
* Python strings are Lean `String`s (processed as `List Char`);
* Python `float` arithmetic on measurement values is idealized as exact
  decimal arithmetic (the `Dec` type below, a signed decimal fraction);
  every numeric value exercised by the specification is exactly
  representable, so this does not change any of the checked behaviours;
* a Python `dict` built by successive assignments is a `List (String × String)`
  of the assignments in order, looked up with a last-assignment-wins `get`;
* an HTML page is modelled by the data the parser actually reads from it:
  the text of its first `h3` element (if any), its `table` elements
  (each a `border` attribute plus the extracted cell texts of its rows),
  and the `src` of its first `img` element (if any).
-/

namespace HyperMill

/-! ## Python whitespace (used by `str.strip` and the regex class `\s`) -/

/-- Characters treated as whitespace by Python `str.strip()` and by the
regex class in `_WS = re.compile(r"\s+")`: the ASCII whitespace and
separator controls plus the Unicode space characters. -/
def isWs (c : Char) : Bool :=
  let n := c.toNat
  (decide (9 ≤ n) && decide (n ≤ 13)) || decide (n = 32) ||
  (decide (28 ≤ n) && decide (n ≤ 31)) || decide (n = 0x85) ||
  decide (n = 0xa0) || decide (n = 0x1680) ||
  (decide (0x2000 ≤ n) && decide (n ≤ 0x200a)) ||
  decide (n = 0x2028) || decide (n = 0x2029) || decide (n = 0x202f) ||
  decide (n = 0x205f) || decide (n = 0x3000)

/-- Python `s.strip()` on a character list: drop whitespace at both ends. -/
def pyStripL (l : List Char) : List Char :=
  (((l.dropWhile isWs).reverse.dropWhile isWs)).reverse

/-- Python `s.strip()`. -/
def pyStrip (s : String) : String :=
  String.mk (pyStripL s.toList)

/-- One pass of `_WS.sub(" ", ·)`: every maximal run of whitespace becomes a
single space.  The boolean argument records whether the previous character
belonged to a whitespace run whose replacement space was already emitted. -/
def collapseAux : Bool → List Char → List Char
  | _, [] => []
  | inRun, c :: cs =>
    if isWs c then
      if inRun then collapseAux true cs else ' ' :: collapseAux true cs
    else c :: collapseAux false cs

/-- The regex substitution `_WS.sub(" ", s)` of `util.py`. -/
def collapseWs (l : List Char) : List Char := collapseAux false l

/-- `util.clean_text`: `_WS.sub(" ", (s or "").strip())`. -/
def cleanText (s : String) : String :=
  String.mk (collapseWs (pyStripL s.toList))

/-! ## Exact decimal numbers

The source stores measurement values in Python `float`s.  Every value the
parser actually computes is a signed decimal fraction read from the
document (or a sum of such), so the embedding idealizes `float` as exact
decimal arithmetic: `Dec` below denotes the rational `num / 10 ^ exp`.
All operations are defined on the represented value (two representations
of the same value behave identically), which matches the float
idealization; `Dec.toRat` is the value view used in theorem statements. -/

/-- An exact decimal number: the rational `num / 10 ^ exp`. -/
structure Dec where
  num : Int
  exp : Nat
  deriving DecidableEq

/-- The rational value a `Dec` denotes. -/
def Dec.toRat (d : Dec) : ℚ := (d.num : ℚ) / (10 : ℚ) ^ d.exp

/-- The decimal 0 (Python `0.0`). -/
def Dec.zero : Dec := ⟨0, 0⟩

/-- Exact addition of decimals (Python `+` on floats, idealized). -/
def Dec.add (a b : Dec) : Dec :=
  let e := max a.exp b.exp
  ⟨a.num * 10 ^ (e - a.exp) + b.num * 10 ^ (e - b.exp), e⟩

/-- Multiplication by 1000 (used by the `"%.3f"` formatting). -/
def Dec.mul1000 (a : Dec) : Dec := ⟨a.num * 1000, a.exp⟩

/-- Whether the value is negative. -/
def Dec.isNeg (a : Dec) : Bool := a.num < 0

/-! ## Numeric extraction (`parse_html._to_float_mm`) -/

/-- Python regex `\d` restricted to the digit ranges this document family can
contain: ASCII digits and the full-width digits `０`-`９` (the only non-ASCII
decimal digits the source's inputs and its translation table deal with). -/
def pyIsDigit (c : Char) : Bool :=
  c.isDigit || (decide (0xFF10 ≤ c.toNat) && decide (c.toNat ≤ 0xFF19))

/-- Numeric value of a (possibly full-width) decimal digit. -/
def digitVal (c : Char) : Nat :=
  if c.isDigit then c.toNat - 48 else c.toNat - 0xFF10

/-- Value of a nonempty digit string, as `int(...)` computes it. -/
def digitsToNat (ds : List Char) : Nat :=
  ds.foldl (fun acc c => 10 * acc + digitVal c) 0

/-- The character translation table
`str.maketrans("０１２３４５６７８９．－＋", "0123456789.-+")`. -/
def fwTranslate (c : Char) : Char :=
  if c = '０' then '0' else if c = '１' then '1' else if c = '２' then '2'
  else if c = '３' then '3' else if c = '４' then '4' else if c = '５' then '5'
  else if c = '６' then '6' else if c = '７' then '7' else if c = '８' then '8'
  else if c = '９' then '9' else if c = '．' then '.' else if c = '－' then '-'
  else if c = '＋' then '+' else c

/-- Value of the regex match `[-+]?\d+(?:\.\d+)?` beginning at the head of
`l` (the head of `l` is a digit), as `float(...)` reads it, as an exact
decimal. -/
def readNum (sign : Int) (l : List Char) : Dec :=
  let ds := l.takeWhile pyIsDigit
  let rest := l.drop ds.length
  match rest with
  | '.' :: r2 =>
    let fs := r2.takeWhile pyIsDigit
    if fs.isEmpty then ⟨sign * digitsToNat ds, 0⟩
    else ⟨sign * (digitsToNat ds * 10 ^ fs.length + digitsToNat fs), fs.length⟩
  | _ => ⟨sign * digitsToNat ds, 0⟩

/-- `re.search(r"[-+]?\d+(?:\.\d+)?", s)` followed by `float(...)`:
scan for the first position where the numeral pattern matches (a digit, or a
sign immediately followed by a digit) and read the greedy match there. -/
def findNum : List Char → Option Dec
  | [] => none
  | c :: cs =>
    if pyIsDigit c then some (readNum 1 (c :: cs))
    else if c = '+' || c = '-' then
      match cs with
      | [] => none
      | d :: _ =>
        if pyIsDigit d then some (readNum (if c = '-' then -1 else 1) cs)
        else findNum cs
    else findNum cs

/-- The string `_to_float_mm` hands to `re.search`: `clean_text`, then the
full-width translation, then removal of the thousands-separator commas. -/
def toFloatPre (s : String) : String :=
  String.mk ((((cleanText s).toList.map fwTranslate)).filter (fun c => c ≠ ','))

/-- `parse_html._to_float_mm` (the spec's `parse_measurement`), with the
float idealized as an exact decimal.  The `try/except` around `float` is
dead for strings matched by the numeral regex and is therefore not
modelled. -/
def toFloatMm (s : String) : Option Dec :=
  if s = "" then none
  else findNum (toFloatPre s).toList

/-! ## Numeric formatting (`parse_html._fmt_mm`) -/

/-- Python `round` (banker's rounding, half to even) on an exact decimal:
with `f = ⌊x⌋` and remainder `r = x - f = rnum / 10 ^ exp`, compare `r`
with `1/2` by cross-multiplying. -/
def pyRound (x : Dec) : Int :=
  let den : Int := 10 ^ x.exp
  let f : Int := x.num.fdiv den
  let rnum : Int := x.num - f * den
  if 2 * rnum < den then f
  else if den < 2 * rnum then f + 1
  else if f % 2 = 0 then f else f + 1

/-- Whether `|x - n| < 1e-9` holds, by cross-multiplying:
`|x.num - n * 10 ^ exp| * 10 ^ 9 < 10 ^ exp`. -/
def Dec.nearInt (x : Dec) (n : Int) : Bool :=
  |x.num - n * 10 ^ x.exp| * 1000000000 < 10 ^ x.exp

/-- Strip all trailing occurrences of `c`, as Python `rstrip` does. -/
def rstripChar (c : Char) (s : String) : String :=
  String.mk ((s.toList.reverse.dropWhile (fun d => d = c)).reverse)

/-- Left-pad the decimal digits of `m < 1000` to width 3. -/
def pad3 (m : Nat) : String :=
  if m < 10 then "00" ++ toString m
  else if m < 100 then "0" ++ toString m
  else toString m

/-- Python `f"{x:.3f}"`: round the value to 3 decimals (half to even) and
print with exactly three decimals, with the sign taken from the value (so
a negative value rounding to 0 still prints a sign, as the IEEE `-0.0`
does). -/
def fmt3 (x : Dec) : String :=
  let n : Int := pyRound x.mul1000
  let a : Nat := n.natAbs
  (if x.isNeg then "-" else "") ++ toString (a / 1000) ++ "." ++ pad3 (a % 1000)

/-- `parse_html._fmt_mm`: `None` renders as `""`; a value within `1e-9` of
its rounding renders as that integer; otherwise three decimals with
trailing zeros and a trailing point stripped. -/
def fmtMm (x : Option Dec) : String :=
  match x with
  | none => ""
  | some x =>
    if x.nearInt (pyRound x) then toString (pyRound x)
    else rstripChar '.' (rstripChar '0' (fmt3 x))

/-! ## Python dicts

A dict built by successive `d[k] = v` assignments is kept as the list of
assignments in order; `get` takes the latest assignment for a key. -/

/-- The assignment list of a Python dict, in assignment order. -/
abbrev PyDict := List (String × String)

/-- One assignment `d[k] = v`. -/
def pyDictSet (d : PyDict) (k v : String) : PyDict := d ++ [(k, v)]

/-- Python `d.get(k, dflt)`: the value of the latest assignment to `k`. -/
def pyDictGet (d : PyDict) (k dflt : String) : String :=
  match (List.reverse d).find? (fun kv => kv.1 = k) with
  | some kv => kv.2
  | none => dflt

/-! ## Key normalization (`_GRID_HEADER_MAP`, `_KV_KEY_MAP`) -/

/-- `parse_html._GRID_HEADER_MAP`. -/
def gridHeaderMap : List (String × String) :=
  [("カップリング種類", "coupling_type"), ("Coupling type", "coupling_type"),
   ("名称", "name"), ("Name", "name"),
   ("全長", "reach"), ("Reach", "reach")]

/-- `parse_html._KV_KEY_MAP`. -/
def kvKeyMap : List (String × String) :=
  [("NCツール コメント", "nctool_comment"), ("NC-Tool comment", "nctool_comment"),
   ("ホルダー コメント", "holder_comment"), ("Holder comment", "holder_comment"),
   ("直径", "diameter"), ("Diameter", "diameter"),
   ("コーナー半径", "corner_radius"), ("Corner radius", "corner_radius"),
   ("刃数", "cutting_edges"), ("Cutting edges", "cutting_edges"),
   ("切削長さ (ap)", "cutting_length"), ("Cutting length", "cutting_length"),
   ("シャンク直径", "shank_diameter"), ("Shank diameter", "shank_diameter"),
   ("面取り長さ", "chamfer_length"), ("Chamfer length", "chamfer_length"),
   ("先端長さ", "tip_length"), ("Tip length", "tip_length"),
   ("テーパー角度", "cone_angle"), ("Cone angle", "cone_angle"),
   ("スピンドル回転方向", "spindle_orientation"), ("Spindle orientation", "spindle_orientation")]

/-- `parse_html._norm_grid_header`: clean, then look up, else pass through. -/
def normGridHeader (h : String) : String :=
  let h := cleanText h
  match gridHeaderMap.lookup h with
  | some v => v
  | none => h

/-- `parse_html._norm_kv_key`: clean, then look up, else pass through. -/
def normKvKey (k : String) : String :=
  let k := cleanText k
  match kvKeyMap.lookup k with
  | some v => v
  | none => k

/-! ## Table structures and readers -/

/-- A `table` element as the parser reads it: its `border` attribute (if
present) and the extracted text of each cell of each `tr` row (the result
of `td.get_text(" ", strip=True)`, before `clean_text`). -/
structure HTable where
  border : Option String := none
  rows : List (List String) := []
  deriving DecidableEq

/-- The body of the row loop of `_parse_kv_table` on the cleaned cells
`tds`: `if len(tds) == 2 and tds[0]`, `elif len(tds) == 4` with the two
`if tds[0]` / `if tds[2]` guards. -/
def kvRowStep (d : PyDict) (tds : List String) : PyDict :=
  match tds with
  | [k, v] => if k ≠ "" then pyDictSet d (normKvKey k) v else d
  | [k1, v1, k2, v2] =>
    let d1 := if k1 ≠ "" then pyDictSet d (normKvKey k1) v1 else d
    if k2 ≠ "" then pyDictSet d1 (normKvKey k2) v2 else d1
  | _ => d

/-- `parse_html._parse_kv_table`: rows of 2 cells give one key-value pair
and rows of 4 cells give two, each pair kept only when its (cleaned) key
cell is non-empty; all other row widths are ignored. -/
def parseKvTable (t : HTable) : PyDict :=
  t.rows.foldl (fun d tr => kvRowStep d (tr.map cleanText)) ([] : PyDict)

/-- One data row of `_parse_grid_table`: zip the normalized header with the
cleaned cells, missing trailing cells read as `""`. -/
def gridRow (header : List String) (vals : List String) : PyDict :=
  (List.range header.length).foldl
    (fun d i => pyDictSet d (header.getD i "") (vals.getD i "")) []

/-- `parse_html._parse_grid_table`: first row is the (normalized) header;
each later row whose cleaned cells are not all empty becomes a dict. -/
def parseGridTable (t : HTable) : List PyDict :=
  match t.rows with
  | [] => []
  | hr :: rest =>
    let header := (hr.map cleanText).map normGridHeader
    rest.foldl
      (fun out tr =>
        let vals := tr.map cleanText
        if vals.any (fun v => v ≠ "") then out ++ [gridRow header vals] else out)
      ([] : List PyDict)

/-! ## Heading patterns (`_RE_*_H3_*`)

Each pattern is a literal followed by a tail; `re.search` tries every
start position left to right and the whole pattern must match from that
position, so each matcher scans for the literal and runs the tail's
backtracking at each occurrence.  Headings reaching these matchers are
always `clean_text` output, hence contain no newline; `$` is therefore
end-of-string and the `.`-excludes-newline rule never bites. -/

/-- Scan positions left to right; where `lit` is a prefix, run `tryTail`
on the remainder; first success wins (the semantics of `re.search` for a
pattern beginning with the nonempty literal `lit`). -/
def searchSplit (lit : List Char) (tryTail : List Char → Option α) :
    List Char → Option α
  | [] => none
  | c :: cs =>
    if lit.isPrefixOf (c :: cs) then
      match tryTail ((c :: cs).drop lit.length) with
      | some r => some r
      | none => searchSplit lit tryTail cs
    else searchSplit lit tryTail cs

/-- Tail `\s*\((\d+)\)\s*$`: maximal whitespace, a parenthesized nonempty
digit group, then only whitespace to the end.  Deterministic because the
greedy `\s*` must stop exactly at the non-whitespace `(`. -/
def ncSuffix (u : List Char) : Option (List Char) :=
  match u.dropWhile isWs with
  | '(' :: u2 =>
    let ds := u2.takeWhile pyIsDigit
    if ds.isEmpty then none
    else
      match u2.drop ds.length with
      | ')' :: u3 => if u3.all isWs then some ds else none
      | _ => none
  | _ => none

/-- Tail `(.+?)\s*\((\d+)\)\s*$`: the lazy group grows one character at a
time (starting nonempty), taking the first split whose remainder matches
`ncSuffix`. -/
def ncTailAux (acc : List Char) : List Char → Option (List Char × List Char)
  | [] => none
  | c :: cs =>
    match ncSuffix cs with
    | some ds => some (acc ++ [c], ds)
    | none => ncTailAux (acc ++ [c]) cs

/-- `Assembly` heading matcher: pattern `LIT(.+?)\s*\((\d+)\)\s*$` searched
in `s`; captures the name group and the numeric identifier. -/
def matchNc (lit : String) (s : String) : Option (String × Nat) :=
  searchSplit lit.toList
    (fun r => (ncTailAux [] r).map fun p => (String.mk p.1, digitsToNat p.2))
    s.toList

/-- Group `(.+?)` before `\)\s*$`, after the opening `(` was consumed: the
lazy group grows until the next character is `)` followed only by
whitespace. -/
def parenLazy (acc : List Char) : List Char → Option (List Char)
  | [] => none
  | c :: cs =>
    match cs with
    | ')' :: cs2 =>
      if cs2.all isWs then some (acc ++ [c]) else parenLazy (acc ++ [c]) cs
    | _ => parenLazy (acc ++ [c]) cs

/-- Tail `\s*\((.+?)\)\s*$` from a fixed position: maximal whitespace, `(`,
then the lazy inner group. -/
def toolSuffix (u : List Char) : Option (List Char) :=
  match u.dropWhile isWs with
  | '(' :: u2 => parenLazy [] u2
  | _ => none

/-- Growth of the first lazy group of `\s*(.+?)\s*\((.+?)\)\s*$` after the
leading whitespace was consumed greedily. -/
def toolTailA (acc : List Char) : List Char → Option (List Char × List Char)
  | [] => none
  | c :: cs =>
    match toolSuffix cs with
    | some g2 => some (acc ++ [c], g2)
    | none => toolTailA (acc ++ [c]) cs

/-- Tail `\s*(.+?)\s*\((.+?)\)\s*$`: the engine first takes the leading
whitespace greedily and grows the lazy group after it; if no split works
there it gives whitespace back one character at a time, so the group
becomes the last whitespace character and the parenthesized part must
start right after the whitespace run. -/
def toolTail (r : List Char) : Option (List Char × List Char) :=
  let w := (r.takeWhile isWs).length
  match toolTailA [] (r.drop w) with
  | some p => some p
  | none =>
    if w ≥ 1 then
      match toolSuffix (r.drop w) with
      | some g2 => ((r.take w).getLast?).map fun c => ([c], g2)
      | none => none
    else none

/-- `Tool` heading matcher: pattern `LIT\s*(.+?)\s*\((.+?)\)\s*$`. -/
def matchTool (lit : String) (s : String) : Option (String × String) :=
  searchSplit lit.toList
    (fun r => (toolTail r).map fun p => (String.mk p.1, String.mk p.2))
    s.toList

/-- Tail `\s*(.+)\s*$`: after the greedy leading whitespace the greedy
group takes everything to the end (the trailing `\s*` then matches the
empty string), provided at least one character remains; on an all-
whitespace nonempty remainder the engine backtracks the leading `\s*` by
one character, capturing just that whitespace character. -/
def holderTail (r : List Char) : Option (List Char) :=
  let t := r.dropWhile isWs
  if t.isEmpty then r.getLast?.map (fun c => [c]) else some t

/-- `Holder` / `SubComponent` heading matcher: pattern `LIT\s*(.+)\s*$`. -/
def matchCapLine (lit : String) (s : String) : Option String :=
  searchSplit lit.toList (fun r => (holderTail r).map String.mk) s.toList

/-- `_match_any([_RE_NCTOOL_H3_JA, _RE_NCTOOL_H3_EN], h3)`. -/
def matchNcAny (s : String) : Option (String × Nat) :=
  match matchNc "NCツール(N):" s with
  | some r => some r
  | none => matchNc "NC-Tool:" s

/-- `_match_any([_RE_TOOL_H3_JA, _RE_TOOL_H3_EN], h3)`. -/
def matchToolAny (s : String) : Option (String × String) :=
  match matchTool "工具:" s with
  | some r => some r
  | none => matchTool "Tool:" s

/-- `_match_any([_RE_HOLDER_H3_JA, _RE_HOLDER_H3_EN], h3)`. -/
def matchHolderAny (s : String) : Option String :=
  match matchCapLine "ホルダー:" s with
  | some r => some r
  | none => matchCapLine "Holder:" s

/-- `_RE_SUBHOLDER_H3_JA.search(h3)`. -/
def matchSubJa (s : String) : Option String := matchCapLine "サブホルダー:" s

/-- `_RE_EXTENSION_H3_EN.search(h3)`. -/
def matchExtEn (s : String) : Option String := matchCapLine "Extension:" s

/-! ## The output record (`model.NcToolRecord`) -/

/-- `model.NcToolRecord` with the dataclass defaults.  The two image cache
paths are never written by the parser and are kept as optional strings. -/
structure NcToolRecord where
  nctool_no : Option Nat := none
  nctool_name : String := ""
  nctool_comment : String := ""
  holder_name : String := ""
  holder_length : String := ""
  tool_name : String := ""
  tool_length : String := ""
  extensions_str : String := ""
  ext_overhang_mm : String := ""
  tool_overhang_mm : String := ""
  overhang_mm : String := ""
  total_length_mm : String := ""
  image_rel_src : String := ""
  image_abs_path : Option String := none
  image_cached_path : Option String := none
  tool_type : String := ""
  tool_page_name : String := ""
  tool_diameter_mm : String := ""
  tool_corner_radius_mm : String := ""
  tool_flutes : String := ""
  tool_cut_length_ap_mm : String := ""
  tool_shank_d_mm : String := ""
  tool_chamfer_len_mm : String := ""
  tool_tip_len_mm : String := ""
  tool_taper_angle_deg : String := ""
  spindle_rotation : String := ""
  cond_S_n : String := ""
  cond_FX : String := ""
  cond_FZ : String := ""
  cond_Fr : String := ""
  cond_ap : String := ""
  cond_ae : String := ""
  holder_page_name : String := ""
  holder_comment : String := ""
  source_html_path : String := ""
  warnings : List String := []
  deriving DecidableEq

/-! ## Pages and the reconstruction state machine (`parse_nctools_html`) -/

/-- A `div.page` block as the parser reads it: the text of its first `h3`
element if one exists, its `table` elements in document order, and the
`src` attribute of its first `img` element (`none` when there is no `img`
or it has no `src` attribute). -/
structure HPage where
  h3 : Option String := none
  tables : List HTable := []
  imgSrc : Option String := none
  deriving DecidableEq

/-- The heading a page is classified by:
`clean_text(h3_el.get_text(" ", strip=True)) if h3_el else ""`. -/
def pageHeading (p : HPage) : String :=
  match p.h3 with
  | some t => cleanText t
  | none => ""

/-- The mutable state of the reconstruction loop: the sealed records, the
open record, and the document-level warning list `errors`. -/
structure PState where
  records : List NcToolRecord
  current : Option NcToolRecord
  errors : List String
  deriving DecidableEq

/-- `finalize_current`: seal the open record, substituting the sentinel
name and a warning when the parsed name strips to empty. -/
def finalizeCurrent (st : PState) : PState :=
  match st.current with
  | none => st
  | some c =>
    let c :=
      if pyStrip c.nctool_name = "" then
        { c with nctool_name := "(UNKNOWN_NCTOOL)",
                 warnings := c.warnings ++ ["nctool_name が空でした（解析失敗の可能性）"] }
      else c
    { st with records := st.records ++ [c], current := none }

/-- Python `str.lower()` as character-wise ASCII lowering (the kind
vocabulary it is compared against is all ASCII). -/
def pyLower (s : String) : String :=
  String.mk (s.toList.map Char.toLower)

/-- The kind cell of a component-grid row:
`(r.get("coupling_type", "") or "").strip().lower()`. -/
def rowKind (r : PyDict) : String :=
  pyLower (pyStrip (pyDictGet r "coupling_type" ""))

/-- Membership in the extension-like kind set
`("extension", "subholder", "ext")`. -/
def isExtKind (k : String) : Bool :=
  k = "extension" || k = "subholder" || k = "ext"

/-- The single step of the component-grid scan of the `Assembly` branch
(the body of `for r in rows`); the tuple carries the record under
construction and the loop variables `holder_len`, `tool_len`, `ext_sum`,
`ext_found`. -/
def scanStep (acc : NcToolRecord × Option Dec × Option Dec × Dec × Bool)
    (r : PyDict) : NcToolRecord × Option Dec × Option Dec × Dec × Bool :=
  let (cur, holderLen, toolLen, extSum, extFound) := acc
  let kind := rowKind r
  let name := pyDictGet r "name" ""
  let lnStr := pyDictGet r "reach" ""
  let ln := toFloatMm lnStr
  if kind = "holder" then
    ({ cur with holder_name := name, holder_length := lnStr },
     ln, toolLen, extSum, extFound)
  else if kind = "tool" then
    ({ cur with tool_name := name, tool_length := lnStr },
     holderLen, ln, extSum, extFound)
  else if isExtKind kind then
    (cur, holderLen, toolLen,
     (match ln with | some v => extSum.add v | none => extSum), true)
  else acc

/-- The component-grid scan of the `Assembly` branch (`for r in rows`). -/
def scanCouplingRows (c : NcToolRecord) (rows : List PyDict) :
    NcToolRecord × Option Dec × Option Dec × Dec × Bool :=
  rows.foldl scanStep (c, none, none, Dec.zero, false)

/-- `_build_extensions_str_from_coupling_rows`. -/
def buildExtensionsStr (rows : List PyDict) : String :=
  let exts := rows.foldl
    (fun exts r =>
      if isExtKind (rowKind r) then
        let name := pyStrip (pyDictGet r "name" "")
        let ln := pyStrip (pyDictGet r "reach" "")
        if name = "" ∧ ln = "" then exts
        else if ln ≠ "" then
          exts ++ [if name ≠ "" then name ++ "(L=" ++ ln ++ ")"
                   else "(L=" ++ ln ++ ")"]
        else exts ++ [name]
      else exts)
    ([] : List String)
  String.intercalate " / " (exts.filter (fun e => e ≠ ""))

/-- Start of the `Assembly` branch: the fresh record with provenance,
cleaned display name and numeric identifier. -/
def assemblyBase (srcPath : String) (nm : String) (no : Nat) : NcToolRecord :=
  { source_html_path := srcPath, nctool_name := cleanText nm, nctool_no := some no }

/-- Comment step of the `Assembly` branch: read `nctool_comment` from the
second table, or warn when fewer than two tables are present. -/
def assemblyComment (c : NcToolRecord) (p : HPage) : NcToolRecord :=
  match p.tables with
  | _ :: t2 :: _ =>
    { c with nctool_comment := pyDictGet (parseKvTable t2) "nctool_comment" "" }
  | _ => { c with warnings := c.warnings ++ ["NCツールページのtableが不足しています"] }

/-- Component step of the `Assembly` branch: find the first `border="1"`
table, scan its grid rows, build the extension string and the three
derived length fields; warn and skip everything when there is none. -/
def assemblyComponents (c : NcToolRecord) (p : HPage) : NcToolRecord :=
  match p.tables.find? (fun t => t.border = some "1") with
  | some ct =>
    let rows := parseGridTable ct
    let (c2, _, toolLen, extSum, extFound) := scanCouplingRows c rows
    { c2 with
      extensions_str := buildExtensionsStr rows,
      ext_overhang_mm := if extFound then fmtMm (some extSum) else "0",
      tool_overhang_mm := match toolLen with | some t => fmtMm (some t) | none => "",
      overhang_mm :=
        match toolLen with | some t => fmtMm (some (extSum.add t)) | none => "" }
  | none =>
    { c with warnings := c.warnings ++ ["NCツールページの構成部品テーブル（border=1）が見つかりません"] }

/-- Image step of the `Assembly` branch: keep the first image's `src` when
present and non-empty (Python truthiness), else warn. -/
def assemblyImage (c : NcToolRecord) (p : HPage) : NcToolRecord :=
  match p.imgSrc with
  | some src =>
    if src ≠ "" then { c with image_rel_src := src }
    else { c with warnings := c.warnings ++ ["NCツールページの画像srcが見つかりません"] }
  | none => { c with warnings := c.warnings ++ ["NCツールページの画像srcが見つかりません"] }

/-- The `Assembly` branch of the page loop: seal the previous record, then
start a new one and apply the comment, component and image steps in the
order the source mutates `current`. -/
def stepAssembly (srcPath : String) (st : PState) (p : HPage)
    (nm : String) (no : Nat) : PState :=
  { finalizeCurrent st with
    current := some (assemblyImage
      (assemblyComponents (assemblyComment (assemblyBase srcPath nm no) p) p) p) }

/-- The `Tool` page branch: merge the dimension table and the first row of
the bordered condition table into the open record. -/
def applyToolPage (c : NcToolRecord) (p : HPage) (g1 g2 : String) : NcToolRecord :=
  let c1 := { c with tool_page_name := cleanText g1, tool_type := cleanText g2 }
  let c2 :=
    match p.tables with
    | [] => { c1 with warnings := c1.warnings ++ ["工具ページの寸法tableが見つかりません"] }
    | t0 :: _ =>
      let kv := parseKvTable t0
      { c1 with
        tool_diameter_mm := pyDictGet kv "diameter" "",
        tool_corner_radius_mm := pyDictGet kv "corner_radius" "",
        tool_flutes := pyDictGet kv "cutting_edges" "",
        tool_cut_length_ap_mm := pyDictGet kv "cutting_length" "",
        tool_shank_d_mm := pyDictGet kv "shank_diameter" "",
        tool_chamfer_len_mm := pyDictGet kv "chamfer_length" "",
        tool_tip_len_mm := pyDictGet kv "tip_length" "",
        tool_taper_angle_deg := pyDictGet kv "cone_angle" "",
        spindle_rotation := pyDictGet kv "spindle_orientation" "" }
  match (p.tables.drop 1).find? (fun t => t.border = some "1") with
  | some ct =>
    match parseGridTable ct with
    | [] => c2
    | c0 :: _ =>
      { c2 with
        cond_S_n := pyDictGet c0 "S (n)" "",
        cond_FX := pyDictGet c0 "FX" "",
        cond_FZ := pyDictGet c0 "FZ" "",
        cond_Fr := pyDictGet c0 "Fr" "",
        cond_ap := pyDictGet c0 "ap" "",
        cond_ae := pyDictGet c0 "ae" "" }
  | none => { c2 with warnings := c2.warnings ++ ["工具ページの条件テーブル（border=1）が見つかりません"] }

/-- The `Holder` page branch: page name and holder comment. -/
def applyHolderPage (c : NcToolRecord) (p : HPage) (g1 : String) : NcToolRecord :=
  let c1 := { c with holder_page_name := cleanText g1 }
  match p.tables with
  | [] => { c1 with warnings := c1.warnings ++ ["ホルダーページのtableが見つかりません"] }
  | t0 :: _ =>
    { c1 with holder_comment := pyDictGet (parseKvTable t0) "holder_comment" "" }

/-- One iteration of `for page_idx, p in enumerate(pages, start=1)`. -/
def processPage (srcPath : String) (st : PState) (p : HPage) : PState :=
  let h3 := pageHeading p
  match matchNcAny h3 with
  | some (nm, no) => stepAssembly srcPath st p nm no
  | none =>
    match st.current with
    | none => st
    | some cur =>
      match matchToolAny h3 with
      | some (g1, g2) => { st with current := some (applyToolPage cur p g1 g2) }
      | none =>
        match matchHolderAny h3 with
        | some g1 => { st with current := some (applyHolderPage cur p g1) }
        | none =>
          match matchSubJa h3 with
          | some nm =>
            { st with current := some { cur with
                warnings := cur.warnings ++ ["サブホルダーページ検出: " ++ cleanText nm] } }
          | none =>
            match matchExtEn h3 with
            | some nm =>
              { st with current := some { cur with
                  warnings := cur.warnings ++ ["Extension page detected: " ++ cleanText nm] } }
            | none => st

/-- The page loop from the initial state. -/
def runPages (srcPath : String) (st : PState) (pages : List HPage) : PState :=
  pages.foldl (processPage srcPath) st

/-- `parse_nctools_html`: fatal error when `soup.select("div.page")` is
empty, otherwise the single pass over the pages followed by the final
`finalize_current()`, returning `(records, errors)`. -/
def parseNctoolsHtml (srcPath : String) (pages : List HPage) :
    Except String (List NcToolRecord × List String) :=
  if pages.isEmpty then
    Except.error "div.page が見つかりません。HTML形式が想定と違います。"
  else
    let st := finalizeCurrent (runPages srcPath ⟨[], none, []⟩ pages)
    Except.ok (st.records, st.errors)

/-! ## Observation functions used by the theorems

These are written from the specification's words, to be compared with the
source-derived functions above. -/

/-- The parseable reach lengths of the extension-like rows, in row order
(spec 4.7: each extension-like row "contributes its parsed length (if
parseable) to a running sum"). -/
def extLengths (rows : List PyDict) : List Dec :=
  rows.filterMap fun r =>
    if isExtKind (rowKind r) then toFloatMm (pyDictGet r "reach" "") else none

/-- The sum of the parseable extension-like reach lengths. -/
def extSumSpec (rows : List PyDict) : Dec :=
  (extLengths rows).foldl Dec.add Dec.zero

/-- Whether any extension-like row was seen. -/
def extSeenSpec (rows : List PyDict) : Bool :=
  rows.any fun r => isExtKind (rowKind r)

/-- The parsed reach length of the tool row (the last one, which is the
one whose fields the scan keeps when several are present). -/
def toolLenSpec (rows : List PyDict) : Option Dec :=
  match (rows.filter fun r => rowKind r = "tool").getLast? with
  | some r => toFloatMm (pyDictGet r "reach" "")
  | none => none

/-- Whether a page is classified `Assembly` (its heading matches one of
the two `NC-Tool` patterns). -/
def isAssemblyPage (p : HPage) : Bool :=
  (matchNcAny (pageHeading p)).isSome

/-- The numeric identifiers captured from the `Assembly` pages, in
encounter order. -/
def assemblyIds (pages : List HPage) : List Nat :=
  pages.filterMap fun p => (matchNcAny (pageHeading p)).map Prod.snd

/-- The numeric identifiers of all records a state holds — the sealed ones
followed by the open one, in order. -/
def obsNos (st : PState) : List (Option Nat) :=
  (st.records ++ (match st.current with | some c => [c] | none => [])).map
    fun r => r.nctool_no

/-- Claim C5 as the specification states it: the pairs a key-value row
contributes, with no condition on the key cell (2 cells: one pair;
4 cells: two pairs; anything else: none).  `tds` are the cleaned cells. -/
def kvRowPairsClaimed (tds : List String) : List (String × String) :=
  match tds with
  | [k, v] => [(normKvKey k, v)]
  | [k1, v1, k2, v2] => [(normKvKey k1, v1), (normKvKey k2, v2)]
  | _ => []

/-- The key-value reading claim C5 describes: fold the claimed pairs of
every row into the dict. -/
def kvTableClaimed (t : HTable) : PyDict :=
  t.rows.foldl
    (fun d tr =>
      (kvRowPairsClaimed (tr.map cleanText)).foldl
        (fun d p => pyDictSet d p.1 p.2) d)
    ([] : PyDict)

/-- The amended per-row contribution: as claimed, but a pair is kept only
when its (cleaned) key cell is non-empty. -/
def kvRowPairsAmended (tds : List String) : List (String × String) :=
  match tds with
  | [k, v] => if k ≠ "" then [(normKvKey k, v)] else []
  | [k1, v1, k2, v2] =>
    (if k1 ≠ "" then [(normKvKey k1, v1)] else []) ++
    (if k2 ≠ "" then [(normKvKey k2, v2)] else [])
  | _ => []

/-- The amended key-value reading: fold the amended pairs of every row
into the dict. -/
def kvTableAmended (t : HTable) : PyDict :=
  t.rows.foldl
    (fun d tr =>
      (kvRowPairsAmended (tr.map cleanText)).foldl
        (fun d p => pyDictSet d p.1 p.2) d)
    ([] : PyDict)

/-- Whether the string `_to_float_mm` scans (after cleaning, full-width
translation and comma removal) contains a decimal digit; the numeral
regex `[-+]?\d+(?:\.\d+)?` matches somewhere exactly when it does. -/
def hasNumeral (s : String) : Bool :=
  (toFloatPre s).toList.any pyIsDigit

/-! ## Normal forms for `clean_text` output

`nfRun l` holds when every whitespace character of `l` is a single space
followed by a non-whitespace character; `headOk`/`lastOk` state that the
ends are not whitespace. -/

/-- The head, if any, is not whitespace. -/
def headOk : List Char → Bool
  | [] => true
  | c :: _ => !isWs c

/-- The last character, if any, is not whitespace. -/
def lastOk : List Char → Bool
  | [] => true
  | [c] => !isWs c
  | _ :: cs => lastOk cs

/-- Every whitespace character is a space and is immediately followed by a
non-whitespace character. -/
def nfRun : List Char → Bool
  | [] => true
  | c :: cs =>
    if isWs c then
      decide (c = ' ') &&
      (match cs with | [] => false | d :: _ => !isWs d) &&
      nfRun cs
    else nfRun cs

/-! ## Concrete pages exercising the sub-holder misclassification -/

/-- A minimal `Assembly` page (no tables, no image). -/
def subholderDemoAsm : HPage := { h3 := some "NCツール(N):T1 (1)" }

/-- A Japanese sub-holder page. -/
def subholderDemoSub : HPage := { h3 := some "サブホルダー: SUB1" }

/-- What the parser actually produces for
`[subholderDemoAsm, subholderDemoSub]`: the sub-holder page is captured by
the holder pattern (`re.search` finds `ホルダー:` inside `サブホルダー:`),
so the holder-page fields are written and the holder-table warning — not
the sub-holder detection warning — is appended. -/
def subholderDemoRecord : NcToolRecord :=
  { nctool_no := some 1
    nctool_name := "T1"
    holder_page_name := "SUB1"
    source_html_path := "doc.html"
    warnings := ["NCツールページのtableが不足しています",
      "NCツールページの構成部品テーブル（border=1）が見つかりません",
      "NCツールページの画像srcが見つかりません",
      "ホルダーページのtableが見つかりません"] }

end HyperMill

deriving instance DecidableEq for Except

namespace HyperMill

/-! ## Theorems: the text normalizer (claim C9) -/

lemma isWs_space : isWs ' ' = true := by decide

lemma headOk_collapse_true (l : List Char) : headOk (collapseAux true l) = true := by
  induction l with
  | nil => rfl
  | cons c cs ih =>
    cases hc : isWs c with
    | true => simpa [collapseAux, hc] using ih
    | false => simp [collapseAux, hc, headOk]

lemma collapse_true_ne_nil (l : List Char) (h0 : l ≠ []) (h1 : lastOk l = true) :
    collapseAux true l ≠ [] := by
  induction l with
  | nil => exact absurd rfl h0
  | cons c cs ih =>
    cases hc : isWs c with
    | true =>
      cases cs with
      | nil => simp_all [lastOk]
      | cons d t =>
        simpa [collapseAux, hc] using ih (by simp) (by simpa [lastOk] using h1)
    | false => simp [collapseAux, hc]

lemma nfRun_lastOk (l : List Char) (h : nfRun l = true) : lastOk l = true := by
  induction l with
  | nil => rfl
  | cons c cs ih =>
    cases hc : isWs c with
    | true =>
      simp only [nfRun, hc] at h
      simp only [if_true, Bool.and_eq_true] at h
      cases cs with
      | nil => simp at h
      | cons d t => simpa [lastOk] using ih h.2
    | false =>
      simp only [nfRun, hc] at h
      simp only [if_false, Bool.false_eq_true] at h
      cases cs with
      | nil => simp [lastOk, hc]
      | cons d t => simpa [lastOk] using ih (by simpa using h)
  
lemma nf_collapse (l : List Char) (h : lastOk l = true) :
    nfRun (collapseAux false l) = true ∧ nfRun (collapseAux true l) = true := by
  induction l with
  | nil => exact ⟨rfl, rfl⟩
  | cons c cs ih =>
    cases hc : isWs c with
    | true =>
      have hcs : cs ≠ [] := by
        intro hn; subst hn; simp_all [lastOk]
      have hlast : lastOk cs = true := by
        cases cs with
        | nil => exact absurd rfl hcs
        | cons d t => simpa [lastOk] using h
      obtain ⟨ihf, iht⟩ := ih hlast
      have hne := collapse_true_ne_nil cs hcs hlast
      have hhd := headOk_collapse_true cs
      constructor
      · simp only [collapseAux, hc, if_true]
        cases hX : collapseAux true cs with
        | nil => exact absurd hX hne
        | cons d t =>
          rw [hX] at hhd iht
          have hd : isWs d = false := by simpa [headOk] using hhd
          simp [nfRun, hd] at iht
          simp only [nfRun, isWs_space]
          simp [hd, iht]
      · simpa [collapseAux, hc] using iht
    | false =>
      have hrest : nfRun (collapseAux false cs) = true := by
        cases cs with
        | nil => rfl
        | cons d t => exact (ih (by simpa [lastOk] using h)).1
      constructor <;>
        · simp only [collapseAux, hc, Bool.false_eq_true, if_false]
          simp only [nfRun, hc]
          simpa using hrest

lemma nf_id (l : List Char) :
    (nfRun l = true → collapseAux false l = l) ∧
    (nfRun l = true → headOk l = true → collapseAux true l = l) := by
  induction l with
  | nil => exact ⟨fun _ => rfl, fun _ _ => rfl⟩
  | cons c cs ih =>
    cases hc : isWs c with
    | true =>
      constructor
      · intro h
        simp only [nfRun, hc] at h
        simp only [if_true, Bool.and_eq_true, decide_eq_true_eq] at h
        obtain ⟨⟨hsp, hrest⟩, hnf⟩ := h
        have hhd : headOk cs = true := by
          cases cs with
          | nil => simp at hrest
          | cons d t => simpa [headOk] using hrest
        simp only [collapseAux, hc, if_true]
        rw [ih.2 hnf hhd, hsp]
        simp
      · intro _ hh
        simp [headOk, hc] at hh
    | false =>
      constructor
      · intro h
        simp only [nfRun, hc] at h
        simp only [if_false, Bool.false_eq_true] at h
        simp only [collapseAux, hc, Bool.false_eq_true, if_false]
        rw [ih.1 (by simpa using h)]
      · intro h _
        simp only [nfRun, hc] at h
        simp only [if_false, Bool.false_eq_true] at h
        simp only [collapseAux, hc, Bool.false_eq_true, if_false]
        rw [ih.1 (by simpa using h)]


lemma headOk_dropWhile (l : List Char) : headOk (l.dropWhile isWs) = true := by
  induction l with
  | nil => rfl
  | cons c cs ih =>
    cases hc : isWs c with
    | true => simpa [List.dropWhile_cons, hc] using ih
    | false => simp [List.dropWhile_cons, hc, headOk]

lemma headOk_collapse_false (l : List Char) (h : headOk l = true) :
    headOk (collapseAux false l) = true := by
  cases l with
  | nil => rfl
  | cons c cs =>
    have hc : isWs c = false := by simpa [headOk] using h
    simp [collapseAux, hc, headOk]

lemma lastOk_append_singleton (A : List Char) (c : Char) :
    lastOk (A ++ [c]) = !isWs c := by
  induction A with
  | nil => simp [lastOk]
  | cons a A ih =>
    cases A with
    | nil => simp [lastOk]
    | cons b B => simpa [lastOk] using ih

lemma lastOk_reverse (l : List Char) : lastOk l.reverse = headOk l := by
  cases l with
  | nil => rfl
  | cons c cs => simp [List.reverse_cons, lastOk_append_singleton, headOk]

lemma headOk_of_isPrefix {P a : List Char} (h : P <+: a) (ha : headOk a = true) :
    headOk P = true := by
  cases P with
  | nil => rfl
  | cons p t =>
    obtain ⟨r, hr⟩ := h
    rw [← hr] at ha
    simpa [headOk] using ha

lemma pyStripL_eq (l : List Char) :
    pyStripL l = (l.dropWhile isWs).rdropWhile isWs := rfl

lemma headOk_pyStripL (l : List Char) : headOk (pyStripL l) = true := by
  have hp : pyStripL l <+: l.dropWhile isWs := by
    rw [pyStripL_eq]
    exact List.rdropWhile_prefix _ _
  exact headOk_of_isPrefix hp (headOk_dropWhile l)

lemma lastOk_pyStripL (l : List Char) : lastOk (pyStripL l) = true := by
  unfold pyStripL
  rw [lastOk_reverse]
  exact headOk_dropWhile _

lemma dropWhile_id_of_headOk {X : List Char} (h : headOk X = true) :
    X.dropWhile isWs = X := by
  cases X with
  | nil => rfl
  | cons c cs =>
    have hc : isWs c = false := by simpa [headOk] using h
    simp [List.dropWhile_cons, hc]

lemma pyStripL_id {X : List Char} (h1 : headOk X = true) (h2 : lastOk X = true) :
    pyStripL X = X := by
  have h3 := lastOk_reverse X.reverse
  rw [List.reverse_reverse] at h3
  have hrev : headOk X.reverse = true := by rw [← h3]; exact h2
  unfold pyStripL
  rw [dropWhile_id_of_headOk h1, dropWhile_id_of_headOk hrev, List.reverse_reverse]

/-- C9: `clean_text` collapses every whitespace run to one space and trims
both ends, and is idempotent: applying it twice equals applying it once. -/
theorem clean_text_idempotent (s : String) :
    cleanText (cleanText s) = cleanText s := by
  have hlist : (cleanText s).toList = collapseWs (pyStripL s.toList) := rfl
  set m := pyStripL s.toList with hm
  have hlastm : lastOk m = true := lastOk_pyStripL _
  have hheadm : headOk m = true := headOk_pyStripL _
  have hnf : nfRun (collapseAux false m) = true := (nf_collapse m hlastm).1
  have hhead : headOk (collapseAux false m) = true := headOk_collapse_false m hheadm
  have hlast : lastOk (collapseAux false m) = true := nfRun_lastOk _ hnf
  show String.mk (collapseWs (pyStripL (cleanText s).toList)) = cleanText s
  rw [hlist]
  unfold collapseWs
  rw [pyStripL_id hhead hlast, (nf_id _).1 hnf]
  rfl

end HyperMill

namespace HyperMill

/-! ## Theorems: numeric extraction (claim C3) and the key-value reader (claim C5) -/

lemma findNum_cons (c : Char) (cs : List Char) :
    findNum (c :: cs) =
      if pyIsDigit c then some (readNum 1 (c :: cs))
      else if c = '+' || c = '-' then
        match cs with
        | [] => none
        | d :: _ =>
          if pyIsDigit d then some (readNum (if c = '-' then -1 else 1) cs)
          else findNum cs
      else findNum cs := rfl

lemma findNum_none_iff (l : List Char) :
    findNum l = none ↔ ∀ c ∈ l, pyIsDigit c = false := by
  induction l with
  | nil => simp [findNum]
  | cons c cs ih =>
    rw [findNum_cons]
    cases hd : pyIsDigit c with
    | true => simp [hd]
    | false =>
      cases hsign : (c = '+' || c = '-') with
      | true =>
        cases cs with
        | nil => simp [hd, hsign]
        | cons d t =>
          cases hd2 : pyIsDigit d with
          | true => simp [hd, hsign, hd2]
          | false =>
            simp only [hd, hsign, hd2, Bool.false_eq_true, if_false, if_true]
            rw [ih]
            simp [hd, hd2]
      | false =>
        simp only [hd, hsign, Bool.false_eq_true, if_false]
        rw [ih]
        simp [hd]

/-- C3: `parse_measurement` (`_to_float_mm`) is a total function returning
`none` exactly when the input is empty or, after full-width translation
and comma removal, contains no numeral; the full-width example parses to
130.5 and the comma example to 130000. -/
theorem parse_measurement_none_iff :
    (∀ s : String, toFloatMm s = none ↔ (s = "" ∨ hasNumeral s = false)) ∧
    (toFloatMm "１３０．５ mm").map Dec.toRat = some (261/2 : ℚ) ∧
    (toFloatMm "130,000").map Dec.toRat = some (130000 : ℚ) := by
  refine ⟨fun s => ?_, ?_, ?_⟩
  · by_cases hs : s = ""
    · simp [toFloatMm, hs]
    · simp only [toFloatMm, hs, if_false, hasNumeral, findNum_none_iff]
      simp [List.any_eq_false, hs]
  · have h : toFloatMm "１３０．５ mm" = some ⟨1305, 1⟩ := by decide
    rw [h]
    simp [Dec.toRat]
    norm_num
  · have h : toFloatMm "130,000" = some ⟨130000, 0⟩ := by decide
    rw [h]
    simp [Dec.toRat]

lemma kvRowStep_eq_amended (d : PyDict) (tds : List String) :
    kvRowStep d tds =
      (kvRowPairsAmended tds).foldl (fun d p => pyDictSet d p.1 p.2) d := by
  rcases tds with _ | ⟨k, _ | ⟨v, _ | ⟨k2, _ | ⟨v2, _ | rest⟩⟩⟩⟩ <;>
    simp only [kvRowStep, kvRowPairsAmended] <;>
    [skip; skip; split; skip; (split <;> split); skip] <;>
    simp [List.foldl_append]

/-- C5 (amended): `_parse_kv_table` equals the claimed per-row pair
reading, restricted to pairs whose (cleaned) key cell is non-empty. -/
theorem read_key_value_amended (t : HTable) :
    parseKvTable t = kvTableAmended t := by
  obtain ⟨b, rows⟩ := t
  show rows.foldl _ [] = rows.foldl _ []
  apply List.foldl_ext
  intro d tr _
  exact kvRowStep_eq_amended d (tr.map cleanText)

/-- C5 counterexample: on a 2-cell row whose key cell is empty the claimed
reading produces an entry but `_parse_kv_table` produces none. -/
theorem read_key_value_counterexample :
    parseKvTable ⟨none, [["", "v"]]⟩ ≠ kvTableClaimed ⟨none, [["", "v"]]⟩ ∧
    parseKvTable ⟨none, [["", "v"]]⟩ = [] ∧
    kvTableClaimed ⟨none, [["", "v"]]⟩ = [("", "v")] := by decide


end HyperMill

namespace HyperMill

/-! ## Theorems: the derived-dimension scan (claim C2) -/

lemma getLast?_cons_eq {α : Type} (a : α) (l : List α) :
    (a :: l).getLast? =
      match l.getLast? with | some x => some x | none => some a := by
  cases l with
  | nil => rfl
  | cons b t =>
    rw [List.getLast?_cons_cons]
    have h : (b :: t).getLast?.isSome := by
      rw [List.getLast?_isSome]
      simp
    obtain ⟨x, hx⟩ := Option.isSome_iff_exists.mp h
    rw [hx]

lemma scan_fold (rows : List PyDict) :
    ∀ (c : NcToolRecord) (hl tl : Option Dec) (s : Dec) (f : Bool),
      (rows.foldl scanStep (c, hl, tl, s, f)).2.2.1 =
          (match (rows.filter fun r => rowKind r = "tool").getLast? with
           | some r => toFloatMm (pyDictGet r "reach" "")
           | none => tl) ∧
        (rows.foldl scanStep (c, hl, tl, s, f)).2.2.2.1 =
          (extLengths rows).foldl Dec.add s ∧
        (rows.foldl scanStep (c, hl, tl, s, f)).2.2.2.2 =
          (f || extSeenSpec rows) := by
  induction rows with
  | nil => intro c hl tl s f; simp [extLengths, extSeenSpec]
  | cons r rest ih =>
    intro c hl tl s f
    rw [List.foldl_cons]
    by_cases h1 : rowKind r = "holder"
    · have h2 : rowKind r ≠ "tool" := by rw [h1]; decide
      have h3 : isExtKind (rowKind r) = false := by rw [h1]; decide
      simp only [scanStep, h1, if_true, reduceIte]
      refine ⟨?_, ?_, ?_⟩
      · rw [(ih _ _ _ _ _).1, List.filter_cons_of_neg (by simpa using h2)]
      · rw [(ih _ _ _ _ _).2.1]
        simp [extLengths, List.filterMap_cons, h3]
      · rw [(ih _ _ _ _ _).2.2]
        simp [extSeenSpec, h3]
    · by_cases h2 : rowKind r = "tool"
      · have h3 : isExtKind (rowKind r) = false := by rw [h2]; decide
        simp only [scanStep, h1, h2, if_true, reduceIte]
        refine ⟨?_, ?_, ?_⟩
        · rw [(ih _ _ _ _ _).1, List.filter_cons_of_pos (by simpa using h2),
            getLast?_cons_eq]
          cases hL : (rest.filter fun r => rowKind r = "tool").getLast? <;> simp
        · rw [(ih _ _ _ _ _).2.1]
          simp [extLengths, List.filterMap_cons, h3]
        · rw [(ih _ _ _ _ _).2.2]
          simp [extSeenSpec, h3]
      · by_cases h3 : isExtKind (rowKind r) = true
        · simp only [scanStep, h1, h2, h3, if_true, reduceIte]
          refine ⟨?_, ?_, ?_⟩
          · rw [(ih _ _ _ _ _).1, List.filter_cons_of_neg (by simpa using h2)]
          · rw [(ih _ _ _ _ _).2.1]
            cases hv : toFloatMm (pyDictGet r "reach" "") <;>
              simp [extLengths, List.filterMap_cons, h3, hv]
          · rw [(ih _ _ _ _ _).2.2]
            simp [extSeenSpec, h3, List.any_cons]
        · simp only [scanStep, h1, h2, h3, Bool.false_eq_true, reduceIte]
          refine ⟨?_, ?_, ?_⟩
          · rw [(ih _ _ _ _ _).1, List.filter_cons_of_neg (by simpa using h2)]
          · rw [(ih _ _ _ _ _).2.1]
            simp [extLengths, List.filterMap_cons, h3]
          · rw [(ih _ _ _ _ _).2.2]
            simp [extSeenSpec, h3, List.any_cons]


end HyperMill

namespace HyperMill

lemma assemblyImage_derived (c : NcToolRecord) (p : HPage) :
    (assemblyImage c p).ext_overhang_mm = c.ext_overhang_mm ∧
      (assemblyImage c p).tool_overhang_mm = c.tool_overhang_mm ∧
      (assemblyImage c p).overhang_mm = c.overhang_mm := by
  cases himg : p.imgSrc with
  | none => simp [assemblyImage, himg]
  | some src =>
    by_cases hsrc : src = "" <;> simp [assemblyImage, himg, hsrc]

lemma assemblyComponents_derived (c : NcToolRecord) (p : HPage) (ct : HTable)
    (hct : p.tables.find? (fun t => t.border = some "1") = some ct) :
    (assemblyComponents c p).ext_overhang_mm =
        (if extSeenSpec (parseGridTable ct) then
          fmtMm (some (extSumSpec (parseGridTable ct))) else "0") ∧
      (assemblyComponents c p).tool_overhang_mm =
        (match toolLenSpec (parseGridTable ct) with
         | some t => fmtMm (some t) | none => "") ∧
      (assemblyComponents c p).overhang_mm =
        (match toolLenSpec (parseGridTable ct) with
         | some t => fmtMm (some ((extSumSpec (parseGridTable ct)).add t))
         | none => "") := by
  have hs := scan_fold (parseGridTable ct) c none none Dec.zero false
  rcases hsc : scanCouplingRows c (parseGridTable ct) with ⟨c2, hlv, tlv, esv, efv⟩
  rw [show List.foldl scanStep (c, none, none, Dec.zero, false) (parseGridTable ct) =
        scanCouplingRows c (parseGridTable ct) from rfl, hsc] at hs
  simp only at hs
  obtain ⟨htl, hes, hef⟩ := hs
  have htl2 : tlv = toolLenSpec (parseGridTable ct) := by
    rw [htl, toolLenSpec]
  have hes2 : esv = extSumSpec (parseGridTable ct) := by
    rw [hes, extSumSpec]
  have hef2 : efv = extSeenSpec (parseGridTable ct) := by
    rw [hef, Bool.false_or]
  simp only [assemblyComponents, hct, hsc]
  rw [htl2, hes2, hef2]
  exact ⟨rfl, rfl, rfl⟩

/-- C2: on an `Assembly` page with a bordered component table, the derived
fields of the opened record are: extension-overhang the formatted sum of
the parseable extension-like reach lengths when an extension-like row was
seen, else the literal `"0"`; tool-overhang the formatted tool reach when
the (last) tool row's length parsed, else `""`; total overhang the
formatted sum of extension-sum and tool length when the tool length
parsed, else `""`. -/
theorem derived_dimension_fields (path : String) (st : PState) (p : HPage)
    (nm : String) (no : Nat) (ct : HTable)
    (hct : p.tables.find? (fun t => t.border = some "1") = some ct) :
    ((stepAssembly path st p nm no).current.map fun c =>
        (c.ext_overhang_mm, c.tool_overhang_mm, c.overhang_mm)) =
      some
        ((if extSeenSpec (parseGridTable ct) then
            fmtMm (some (extSumSpec (parseGridTable ct))) else "0"),
         (match toolLenSpec (parseGridTable ct) with
          | some t => fmtMm (some t) | none => ""),
         (match toolLenSpec (parseGridTable ct) with
          | some t => fmtMm (some ((extSumSpec (parseGridTable ct)).add t))
          | none => "")) := by
  obtain ⟨hi1, hi2, hi3⟩ := assemblyImage_derived
    (assemblyComponents (assemblyComment (assemblyBase path nm no) p) p) p
  obtain ⟨hc1, hc2, hc3⟩ := assemblyComponents_derived
    (assemblyComment (assemblyBase path nm no) p) p ct hct
  simp only [stepAssembly, Option.map_some']
  rw [hi1, hi2, hi3, hc1, hc2, hc3]

/-- Witness for C2: extension rows summing to 25 and a tool row of length
40 produce extension-overhang `"25"`, tool-overhang `"40"` and total
overhang `"65"`. -/
theorem derived_dimension_fields_witness :
    ((stepAssembly "doc" ⟨[], none, []⟩
        ⟨some "NCツール(N):T2 (2)",
         [⟨some "1", [["カップリング種類", "名称", "全長"],
                      ["Extension", "EXT1", "25"],
                      ["Tool", "T1", "40"]]⟩], none⟩
        "T2" 2).current.map fun c =>
      (c.ext_overhang_mm, c.tool_overhang_mm, c.overhang_mm)) =
      some ("25", "40", "65") := by
  rw [derived_dimension_fields "doc" ⟨[], none, []⟩ _ "T2" 2
    ⟨some "1", [["カップリング種類", "名称", "全長"],
                ["Extension", "EXT1", "25"],
                ["Tool", "T1", "40"]]⟩ (by decide)]
  decide


end HyperMill

namespace HyperMill

/-! ## Theorems: the record reconstruction state machine (claims C1, C4, C6, C7, C10) -/

lemma scanStep_no (acc : NcToolRecord × Option Dec × Option Dec × Dec × Bool)
    (r : PyDict) : (scanStep acc r).1.nctool_no = acc.1.nctool_no := by
  rcases acc with ⟨cur, hl, tl, s, f⟩
  simp only [scanStep]
  split
  · rfl
  · split
    · rfl
    · split <;> rfl

lemma scan_no (rows : List PyDict) :
    ∀ acc, ((rows.foldl scanStep acc).1).nctool_no = acc.1.nctool_no := by
  induction rows with
  | nil => intro acc; rfl
  | cons r rest ih =>
    intro acc
    rw [List.foldl_cons, ih, scanStep_no]

lemma assemblyComment_no (c : NcToolRecord) (p : HPage) :
    (assemblyComment c p).nctool_no = c.nctool_no := by
  unfold assemblyComment
  split <;> rfl

lemma assemblyComponents_no (c : NcToolRecord) (p : HPage) :
    (assemblyComponents c p).nctool_no = c.nctool_no := by
  unfold assemblyComponents
  split
  · show (scanCouplingRows c _).1.nctool_no = c.nctool_no
    exact scan_no _ _
  · rfl

lemma assemblyImage_no (c : NcToolRecord) (p : HPage) :
    (assemblyImage c p).nctool_no = c.nctool_no := by
  unfold assemblyImage
  split
  · split <;> rfl
  · rfl

lemma applyToolPage_no (c : NcToolRecord) (p : HPage) (g1 g2 : String) :
    (applyToolPage c p g1 g2).nctool_no = c.nctool_no := by
  unfold applyToolPage
  repeat' split
  all_goals simp

lemma applyHolderPage_no (c : NcToolRecord) (p : HPage) (g1 : String) :
    (applyHolderPage c p g1).nctool_no = c.nctool_no := by
  unfold applyHolderPage
  repeat' split
  all_goals simp

lemma finalize_obs (st : PState) : obsNos (finalizeCurrent st) = obsNos st := by
  rcases st with ⟨recs, cur, errs⟩
  cases cur with
  | none => rfl
  | some c =>
    simp only [finalizeCurrent, obsNos]
    split <;> simp

lemma finalize_current_none (st : PState) : (finalizeCurrent st).current = none := by
  rcases st with ⟨recs, cur, errs⟩
  cases cur with
  | none => rfl
  | some c => simp only [finalizeCurrent]

lemma finalize_errors (st : PState) : (finalizeCurrent st).errors = st.errors := by
  rcases st with ⟨recs, cur, errs⟩
  cases cur with
  | none => rfl
  | some c => simp only [finalizeCurrent]

lemma finalize_records_sub (st : PState) :
    ∀ r ∈ st.records, r ∈ (finalizeCurrent st).records := by
  rcases st with ⟨recs, cur, errs⟩
  cases cur with
  | none => intro r h; exact h
  | some c =>
    intro r h
    simp only [finalizeCurrent]
    simp [h]


end HyperMill

namespace HyperMill

lemma processPage_obs (path : String) (st : PState) (p : HPage) :
    obsNos (processPage path st p) =
      obsNos st ++
        (match matchNcAny (pageHeading p) with
         | some pr => [some pr.2] | none => []) := by
  cases hm : matchNcAny (pageHeading p) with
  | some pr =>
    rcases pr with ⟨nm, no⟩
    have hno : (assemblyImage (assemblyComponents
        (assemblyComment (assemblyBase path nm no) p) p) p).nctool_no = some no := by
      rw [assemblyImage_no, assemblyComponents_no, assemblyComment_no]; rfl
    have h1 := finalize_obs st
    have h2 := finalize_current_none st
    simp only [processPage, hm, stepAssembly]
    rw [← h1, obsNos, obsNos, h2]
    simp [hno]
  | none =>
    simp only [processPage, hm]
    cases hcur : st.current with
    | none => simp
    | some cur =>
      cases ht : matchToolAny (pageHeading p) with
      | some g => rcases g with ⟨g1, g2⟩; simp [obsNos, hcur, applyToolPage_no]
      | none =>
        cases hh : matchHolderAny (pageHeading p) with
        | some g1 => simp [obsNos, hcur, applyHolderPage_no]
        | none =>
          cases hs : matchSubJa (pageHeading p) with
          | some nm2 => simp [obsNos, hcur]
          | none =>
            cases he : matchExtEn (pageHeading p) with
            | some nm2 => simp [obsNos, hcur]
            | none => simp [hcur]

lemma run_obs (path : String) (pages : List HPage) :
    ∀ st, obsNos (runPages path st pages) =
      obsNos st ++ (assemblyIds pages).map some := by
  induction pages with
  | nil => intro st; simp [runPages, assemblyIds]
  | cons p rest ih =>
    intro st
    show obsNos (runPages path (processPage path st p) rest) = _
    rw [ih, processPage_obs]
    cases hm : matchNcAny (pageHeading p) with
    | some pr => simp [assemblyIds, List.filterMap_cons, hm]
    | none => simp [assemblyIds, List.filterMap_cons, hm]

lemma assemblyIds_length (pages : List HPage) :
    (assemblyIds pages).length = (pages.filter isAssemblyPage).length := by
  induction pages with
  | nil => rfl
  | cons p rest ih =>
    have ih2 := ih
    simp only [assemblyIds] at ih2
    cases hm : matchNcAny (pageHeading p) with
    | some pr =>
      simp [assemblyIds, isAssemblyPage, List.filterMap_cons, List.filter_cons,
        hm, ih2]
    | none =>
      simp [assemblyIds, isAssemblyPage, List.filterMap_cons, List.filter_cons,
        hm, ih2]

/-- C1: a successful parse yields exactly one record per `Assembly`-
classified page, in encounter order: the records' numeric identifiers are
precisely the identifiers captured from the `Assembly` pages, in order,
and the record count equals the `Assembly` page count. -/
theorem record_per_assembly_page (path : String) (pages : List HPage)
    (recs : List NcToolRecord) (errs : List String)
    (h : parseNctoolsHtml path pages = Except.ok (recs, errs)) :
    recs.map (fun r => r.nctool_no) = (assemblyIds pages).map some ∧
      recs.length = (pages.filter isAssemblyPage).length := by
  unfold parseNctoolsHtml at h
  by_cases hp : pages.isEmpty
  · rw [if_pos hp] at h; simp at h
  · rw [if_neg hp] at h
    injection h with h2
    have hr : (finalizeCurrent (runPages path ⟨[], none, []⟩ pages)).records = recs :=
      congrArg Prod.fst h2
    set st := runPages path ⟨[], none, []⟩ pages with hst
    have hobs := run_obs path pages ⟨[], none, []⟩
    have hfin := finalize_obs st
    have hcur := finalize_current_none st
    have hmain : (finalizeCurrent st).records.map (fun r => r.nctool_no) =
        (assemblyIds pages).map some := by
      have hx : obsNos (finalizeCurrent st) =
          (finalizeCurrent st).records.map (fun r => r.nctool_no) := by
        rw [obsNos, hcur]; simp
      rw [← hx, hfin, hobs]
      simp [obsNos]
    rw [← hr]
    refine ⟨hmain, ?_⟩
    rw [← assemblyIds_length]
    have := congrArg List.length hmain
    simpa using this

/-- Witness for C1 at a concrete two-page document with one `Assembly`
page. -/
theorem record_per_assembly_page_witness :
    [subholderDemoRecord].map (fun r => r.nctool_no) =
        (assemblyIds [subholderDemoAsm, subholderDemoSub]).map some ∧
      [subholderDemoRecord].length =
        ([subholderDemoAsm, subholderDemoSub].filter isAssemblyPage).length :=
  record_per_assembly_page "doc.html" _ _ [] (by decide)


end HyperMill

namespace HyperMill

/-- C4: the parse raises the single fatal error exactly on a document with
zero page blocks — no records are returned there — and on any document
with at least one page block it runs to completion with records and
warnings. -/
theorem parse_fatal_error (path : String) (pages : List HPage) :
    (pages = [] → parseNctoolsHtml path pages =
        Except.error "div.page が見つかりません。HTML形式が想定と違います。") ∧
      (pages ≠ [] → ∃ recs errs,
        parseNctoolsHtml path pages = Except.ok (recs, errs)) := by
  constructor
  · intro h; subst h; rfl
  · intro h
    have hp : pages.isEmpty = false := by simp [List.isEmpty_iff, h]
    refine ⟨(finalizeCurrent (runPages path ⟨[], none, []⟩ pages)).records,
      (finalizeCurrent (runPages path ⟨[], none, []⟩ pages)).errors, ?_⟩
    unfold parseNctoolsHtml
    rw [hp]
    simp

/-- Witness for C4: the empty document errs, a one-page document does not. -/
theorem parse_fatal_error_witness :
    parseNctoolsHtml "x" ([] : List HPage) =
        Except.error "div.page が見つかりません。HTML形式が想定と違います。" ∧
      parseNctoolsHtml "x" [⟨none, [], none⟩] ≠
        Except.error "div.page が見つかりません。HTML形式が想定と違います。" := by
  constructor
  · exact (parse_fatal_error "x" []).1 rfl
  · obtain ⟨recs, errs, hok⟩ := (parse_fatal_error "x" [⟨none, [], none⟩]).2 (by simp)
    rw [hok]
    simp

lemma processPage_skip (path : String) (st : PState) (p : HPage)
    (hnc : matchNcAny (pageHeading p) = none) (hcur : st.current = none) :
    processPage path st p = st := by
  simp only [processPage, hnc, hcur]

lemma run_skip_all (path : String) (pre : List HPage)
    (hpre : ∀ p ∈ pre, matchNcAny (pageHeading p) = none) :
    runPages path ⟨[], none, []⟩ pre = ⟨[], none, []⟩ := by
  induction pre with
  | nil => rfl
  | cons p t ih =>
    show runPages path (processPage path ⟨[], none, []⟩ p) t = _
    rw [processPage_skip path _ p (hpre p (by simp)) rfl]
    exact ih fun q hq => hpre q (by simp [hq])

/-- C6: pages before the first `Assembly` page are discarded silently:
parsing a document with such a leading segment gives exactly the same
result (records and document-level warnings) as parsing without it, and a
non-empty document with no `Assembly` page at all parses to no records and
no warnings. -/
theorem leading_pages_discarded (path : String) (pre rest : List HPage)
    (hpre : ∀ p ∈ pre, matchNcAny (pageHeading p) = none) :
    (rest ≠ [] →
      parseNctoolsHtml path (pre ++ rest) = parseNctoolsHtml path rest) ∧
    (pre ≠ [] → parseNctoolsHtml path pre = Except.ok ([], [])) := by
  have hrun := run_skip_all path pre hpre
  constructor
  · intro hne
    have h1 : (pre ++ rest).isEmpty = false := by
      simp [List.isEmpty_iff, hne]
    have h2 : rest.isEmpty = false := by simp [List.isEmpty_iff, hne]
    unfold parseNctoolsHtml
    rw [h1, h2]
    simp only [Bool.false_eq_true, if_false]
    show Except.ok ((finalizeCurrent (runPages path _ (pre ++ rest))).records, _) = _
    unfold runPages
    rw [List.foldl_append]
    rw [show List.foldl (processPage path) ⟨[], none, []⟩ pre = (⟨[], none, []⟩ : PState)
      from hrun]
  · intro hne
    have h1 : pre.isEmpty = false := by simp [List.isEmpty_iff, hne]
    unfold parseNctoolsHtml
    rw [h1]
    simp only [Bool.false_eq_true, if_false]
    rw [hrun]
    rfl

/-- Witness for C6: one junk page before the only `Assembly` page changes
nothing, and a document of just that junk page yields no records and no
warnings. -/
theorem leading_pages_discarded_witness :
    parseNctoolsHtml "doc.html" ([⟨some "junk", [], none⟩] ++ [subholderDemoAsm]) =
        parseNctoolsHtml "doc.html" [subholderDemoAsm] ∧
      parseNctoolsHtml "doc.html" [⟨some "junk", [], none⟩] =
        Except.ok ([], []) :=
  ⟨(leading_pages_discarded "doc.html" [⟨some "junk", [], none⟩] [subholderDemoAsm]
      (by decide)).1 (by simp),
   (leading_pages_discarded "doc.html" [⟨some "junk", [], none⟩] []
      (by decide)).2 (by simp)⟩

lemma finalize_names (st : PState)
    (h : ∀ r ∈ st.records, pyStrip r.nctool_name ≠ "") :
    ∀ r ∈ (finalizeCurrent st).records, pyStrip r.nctool_name ≠ "" := by
  rcases st with ⟨recs, cur, errs⟩
  cases cur with
  | none => exact h
  | some c =>
    simp only [finalizeCurrent]
    intro r hr
    simp only [List.mem_append, List.mem_singleton] at hr
    rcases hr with hr | hr
    · exact h r hr
    · subst hr
      split
      · exact (by decide : pyStrip "(UNKNOWN_NCTOOL)" ≠ "")
      · rename_i hnn
        exact hnn

lemma processPage_records_nonasm (path : String) (st : PState) (p : HPage)
    (hm : matchNcAny (pageHeading p) = none) :
    (processPage path st p).records = st.records := by
  simp only [processPage, hm]
  cases hcur : st.current with
  | none => rfl
  | some cur =>
    repeat' split
    all_goals rfl

lemma run_names (path : String) (pages : List HPage) :
    ∀ st, (∀ r ∈ st.records, pyStrip r.nctool_name ≠ "") →
      ∀ r ∈ (runPages path st pages).records, pyStrip r.nctool_name ≠ "" := by
  induction pages with
  | nil => intro st h; exact h
  | cons p rest ih =>
    intro st h
    show ∀ r ∈ (runPages path (processPage path st p) rest).records, _
    apply ih
    cases hm : matchNcAny (pageHeading p) with
    | some pr =>
      rcases pr with ⟨nm, no⟩
      have hrec : (processPage path st p).records = (finalizeCurrent st).records := by
        simp only [processPage, hm, stepAssembly]
      rw [hrec]
      exact finalize_names st h
    | none =>
      rw [processPage_records_nonasm path st p hm]
      exact h

/-- C7: every record of a successful parse has a display name that is
non-empty even after stripping (the sealing step substitutes the sentinel
and warns instead of failing). -/
theorem sealed_record_name_nonempty (path : String) (pages : List HPage)
    (recs : List NcToolRecord) (errs : List String)
    (h : parseNctoolsHtml path pages = Except.ok (recs, errs)) :
    ∀ r ∈ recs, pyStrip r.nctool_name ≠ "" := by
  unfold parseNctoolsHtml at h
  by_cases hp : pages.isEmpty
  · rw [if_pos hp] at h; simp at h
  · rw [if_neg hp] at h
    injection h with h2
    have hr : (finalizeCurrent (runPages path ⟨[], none, []⟩ pages)).records = recs :=
      congrArg Prod.fst h2
    rw [← hr]
    exact finalize_names _ (run_names path pages ⟨[], none, []⟩ (by simp))

/-- Witness for C7 at a concrete document. -/
theorem sealed_record_name_nonempty_witness :
    pyStrip subholderDemoRecord.nctool_name ≠ "" :=
  sealed_record_name_nonempty "doc.html" [subholderDemoAsm, subholderDemoSub]
    [subholderDemoRecord] [] (by decide) subholderDemoRecord (by simp)

lemma processPage_errors (path : String) (st : PState) (p : HPage) :
    (processPage path st p).errors = st.errors := by
  cases hm : matchNcAny (pageHeading p) with
  | some pr =>
    rcases pr with ⟨nm, no⟩
    have : (processPage path st p).errors = (finalizeCurrent st).errors := by
      simp only [processPage, hm, stepAssembly]
    rw [this, finalize_errors]
  | none =>
    simp only [processPage, hm]
    cases hcur : st.current with
    | none => rfl
    | some cur =>
      repeat' split
      all_goals rfl

lemma run_errors (path : String) (pages : List HPage) :
    ∀ st, (runPages path st pages).errors = st.errors := by
  induction pages with
  | nil => intro st; rfl
  | cons p rest ih =>
    intro st
    show (runPages path (processPage path st p) rest).errors = _
    rw [ih, processPage_errors]

/-- C10: the document-level warning list returned by a successful parse is
always empty — nothing is ever appended to `errors`. -/
theorem document_warning_list_empty (path : String) (pages : List HPage)
    (recs : List NcToolRecord) (errs : List String)
    (h : parseNctoolsHtml path pages = Except.ok (recs, errs)) :
    errs = [] := by
  unfold parseNctoolsHtml at h
  by_cases hp : pages.isEmpty
  · rw [if_pos hp] at h; simp at h
  · rw [if_neg hp] at h
    injection h with h2
    have he : (finalizeCurrent (runPages path ⟨[], none, []⟩ pages)).errors = errs :=
      congrArg Prod.snd h2
    rw [← he, finalize_errors, run_errors]

/-- Witness for C10 at a concrete document. -/
theorem document_warning_list_empty_witness : ([] : List String) = [] :=
  document_warning_list_empty "doc.html" [subholderDemoAsm, subholderDemoSub]
    [subholderDemoRecord] [] (by decide)


end HyperMill

namespace HyperMill

/-! ## Theorems: the sub-holder page misclassification (claim C8) -/

/-- C8 (code bug): a Japanese sub-holder page following an `Assembly` page
is not handled by the sub-holder branch at all: `re.search` finds the
holder pattern inside `サブホルダー:`, so the page is processed as a
`Holder` page — `holder_page_name` is overwritten and the holder-table
warning is appended, while the sub-holder detection warning never appears.
The record below exhibits this on a concrete two-page document. -/
theorem subholder_page_misclassified :
    parseNctoolsHtml "doc.html" [subholderDemoAsm, subholderDemoSub] =
        Except.ok ([subholderDemoRecord], []) ∧
      subholderDemoRecord.holder_page_name = "SUB1" ∧
      subholderDemoRecord.warnings.all
        (fun w => w ≠ "サブホルダーページ検出: SUB1") = true := by
  decide


end HyperMill
